import Mathlib

/- Shallow embedding of the WIFuncResolution pass (work-item intrinsic lowering)
   of the Intel Graphics Compiler. Values of LLVM integer type iN are embedded
   as `Nat` with explicit `% 2 ^ N` where the machine arithmetic can wrap.
   Memory (the NEO side buffer and the flat address space holding the local-id
   table) is embedded as `Nat → Nat`, a byte at each address. -/

namespace WIFunc

/- Byte offsets of the fields of the side buffer generated by NEO, computed by
   cumulative sums exactly as in class GLOBAL_STATE_FIELD_OFFSETS. -/
namespace GLOBAL_STATE_FIELD_OFFSETS

def STRUCT_SIZE : Nat := 0
def VERSION : Nat := STRUCT_SIZE + 1
def NUM_WORK_DIM : Nat := VERSION + 1
def SIMDSIZE : Nat := NUM_WORK_DIM + 1
def LOCAL_SIZES : Nat := SIMDSIZE + 1
def LOCAL_SIZE_X : Nat := LOCAL_SIZES
def LOCAL_SIZE_Y : Nat := LOCAL_SIZE_X + 4
def LOCAL_SIZE_Z : Nat := LOCAL_SIZE_Y + 4
def GLOBAL_SIZES : Nat := LOCAL_SIZE_Z + 4
def GLOBAL_SIZE_X : Nat := GLOBAL_SIZES
def GLOBAL_SIZE_Y : Nat := GLOBAL_SIZE_X + 8
def GLOBAL_SIZE_Z : Nat := GLOBAL_SIZE_Y + 8
def PRINTF_BUFFER : Nat := GLOBAL_SIZE_Z + 8
def GLOBAL_OFFSETS : Nat := PRINTF_BUFFER + 8
def GLOBAL_OFFSET_X : Nat := GLOBAL_OFFSETS
def GLOBAL_OFFSET_Y : Nat := GLOBAL_OFFSET_X + 8
def GLOBAL_OFFSET_Z : Nat := GLOBAL_OFFSET_Y + 8
def LOCAL_IDS : Nat := GLOBAL_OFFSET_Z + 8
def GROUP_COUNTS : Nat := LOCAL_IDS + 8
def GROUP_COUNT_X : Nat := GROUP_COUNTS
def GROUP_COUNT_Y : Nat := GROUP_COUNT_X + 4
def GROUP_COUNT_Z : Nat := GROUP_COUNT_Y + 4

end GLOBAL_STATE_FIELD_OFFSETS

/-- The `len` bytes of the buffer starting at byte address `start`. -/
def bytesAt (buf : Nat → Nat) (start len : Nat) : List Nat :=
  (List.range len).map fun i => buf (start + i)

/-- Embedding of `BuildLoadInst(CI, Offset, DataType)`: the bytes of the value
it produces.  `ElemByteSize` is the scalar element byte width of `DataType` and
`NumElems` its element count (`1` for a scalar), so `Size` is the total byte
width.  The load byte size is `Size` when `Offset` equals the element-aligned
`AlignedOffset`, and `Size * 2` otherwise; in the misaligned case the bytes
`[Offset - AlignedOffset, Offset - AlignedOffset + Size)` of the loaded span
are copied into a fresh byte vector (the extract/insert-element loop). -/
def BuildLoadInst (buf : Nat → Nat) (Offset ElemByteSize NumElems : Nat) : List Nat :=
  let Size := ElemByteSize * NumElems
  let AlignedOffset := Offset / ElemByteSize * ElemByteSize
  if Offset = AlignedOffset then bytesAt buf AlignedOffset Size
  else
    let loaded := bytesAt buf AlignedOffset (Size * 2)
    (List.range Size).map fun I => loaded.getD (Offset + I - AlignedOffset) 0

theorem bytesAt_getD (buf : Nat → Nat) (start len idx : Nat) (h : idx < len) :
    (bytesAt buf start len).getD idx 0 = buf (start + idx) := by
  simp [bytesAt, List.getD_eq_getElem?_getD, List.getElem?_map, List.getElem?_range h]

/-- Helper: whether or not `Offset` is element aligned, the bytes produced by
`BuildLoadInst` are exactly the buffer's bytes at `[Offset, Offset + Size)`. -/
theorem BuildLoadInst_eq_bytesAt (buf : Nat → Nat) (Offset ElemByteSize NumElems : Nat)
    (hE : 0 < ElemByteSize) (hn : 0 < NumElems) :
    BuildLoadInst buf Offset ElemByteSize NumElems =
      bytesAt buf Offset (ElemByteSize * NumElems) := by
  simp only [BuildLoadInst]
  split
  · next h => rw [← h]
  · next h =>
    conv_rhs => rw [bytesAt]
    apply List.map_congr_left
    intro I hI
    rw [List.mem_range] at hI
    have hAle : Offset / ElemByteSize * ElemByteSize ≤ Offset := Nat.div_mul_le_self _ _
    have hAgt : Offset < Offset / ElemByteSize * ElemByteSize + ElemByteSize := by
      have h1 := Nat.div_add_mod' Offset ElemByteSize
      have h2 := Nat.mod_lt Offset hE
      omega
    have hEleS : ElemByteSize ≤ ElemByteSize * NumElems := Nat.le_mul_of_pos_right _ hn
    have hidx : Offset + I - Offset / ElemByteSize * ElemByteSize <
        ElemByteSize * NumElems * 2 := by omega
    rw [bytesAt_getD buf _ _ _ hidx]
    congr 1
    omega

/-- Claim C2: for every byte offset `Offset` and every scalar or fixed-width
vector target type of element byte width `ElemByteSize > 0` and element count
`NumElems > 0` (total byte width `Size = ElemByteSize * NumElems`), the Field
Loader's result reinterpreted as bytes equals the buffer's bytes at
`[Offset, Offset + Size)`: the round-trip holds whether or not `Offset` is
element aligned. -/
theorem fieldLoader_roundTrip (buf : Nat → Nat) (Offset ElemByteSize NumElems : Nat)
    (hE : 0 < ElemByteSize) (hn : 0 < NumElems) :
    BuildLoadInst buf Offset ElemByteSize NumElems =
      bytesAt buf Offset (ElemByteSize * NumElems) :=
  BuildLoadInst_eq_bytesAt buf Offset ElemByteSize NumElems hE hn

/-- A concrete side buffer used as a witness input: byte `i` holds `i % 256`. -/
def exampleBuf : Nat → Nat := fun i => i % 256

/-- Witness for C2: the round-trip at the misaligned offset 2 with a 4-byte
element (the offset is not 4-aligned, so the doubled-load path is taken), and
at the aligned offset 4 with a 3-element 4-byte vector. -/
theorem fieldLoader_roundTrip_witness :
    (0 < 4 ∧ 0 < 1 ∧ BuildLoadInst exampleBuf 2 4 1 = bytesAt exampleBuf 2 4) ∧
    (0 < 4 ∧ 0 < 3 ∧ BuildLoadInst exampleBuf 4 4 3 = bytesAt exampleBuf 4 12) :=
  ⟨⟨by decide, by decide, fieldLoader_roundTrip exampleBuf 2 4 1 (by decide) (by decide)⟩,
   ⟨by decide, by decide, fieldLoader_roundTrip exampleBuf 4 4 3 (by decide) (by decide)⟩⟩

/-- Little-endian value of the first four bytes of a byte list, i.e. the i32
value an LLVM load of those bytes produces. -/
def le32 (bs : List Nat) : Nat :=
  bs.getD 0 0 + 2 ^ 8 * bs.getD 1 0 + 2 ^ 16 * bs.getD 2 0 + 2 ^ 24 * bs.getD 3 0

/-- Embedding of `WIFuncResolution::getWorkDim` on the IndirectStack
(stack-call attribute) path: `Offset = NUM_WORK_DIM / Size` with `Size = 4`,
a 32-bit load through `BuildLoadInst` at that byte offset, then a logical
shift right by 24 bits. -/
def getWorkDimIndirect (buf : Nat → Nat) : Nat :=
  let Size := 4
  let Offset := GLOBAL_STATE_FIELD_OFFSETS.NUM_WORK_DIM / Size
  le32 (BuildLoadInst buf Offset 4 1) >>> 24

/-- A side buffer whose 32-bit little-endian word at byte offset
`NUM_WORK_DIM = 2` is `0x05000000` (bytes 2..5 are 0,0,0,5) while every other
byte is 0. -/
def wdBufA : Nat → Nat := fun i => if i = 5 then 5 else 0

/-- Counterexample for C1: on `wdBufA` the raw 32-bit word at the NUM_WORK_DIM
byte offset is `0x05000000`, yet the lowering yields 0, not 5 — the code loads
at byte offset `NUM_WORK_DIM / 4 = 0`, not at the NUM_WORK_DIM byte offset 2. -/
theorem workDim_counterexample :
    le32 (bytesAt wdBufA GLOBAL_STATE_FIELD_OFFSETS.NUM_WORK_DIM 4) = 0x05000000 ∧
    getWorkDimIndirect wdBufA = 0 ∧ getWorkDimIndirect wdBufA ≠ 5 := by
  refine ⟨by decide, by decide, by decide⟩

/-- Claim C1 (amended): in IndirectStack mode the WorkDim lowering is a 32-bit
field load at byte offset `NUM_WORK_DIM / 4 = 0` of the side buffer followed by
a logical shift right by 24 bits, and when the loaded raw 32-bit word is
`0x05000000` the result is 5. -/
theorem workDim_indirect (buf : Nat → Nat) :
    GLOBAL_STATE_FIELD_OFFSETS.NUM_WORK_DIM / 4 = 0 ∧
    getWorkDimIndirect buf = le32 (bytesAt buf 0 4) >>> 24 ∧
    (le32 (bytesAt buf 0 4) = 0x05000000 → getWorkDimIndirect buf = 5) := by
  refine ⟨by decide, rfl, fun h => ?_⟩
  show le32 (BuildLoadInst buf (GLOBAL_STATE_FIELD_OFFSETS.NUM_WORK_DIM / 4) 4 1) >>> 24 = 5
  have hb : BuildLoadInst buf (GLOBAL_STATE_FIELD_OFFSETS.NUM_WORK_DIM / 4) 4 1 =
      bytesAt buf 0 4 := rfl
  rw [hb, h]
  decide

/-- A side buffer whose 32-bit little-endian word at byte offset 0 is
`0x05000000` (byte 3 is 5, all others 0). -/
def wdBufB : Nat → Nat := fun i => if i = 3 then 5 else 0

/-- Witness for C1 (amended): on `wdBufB` the loaded word at offset 0 is
`0x05000000` and the lowering yields 5. -/
theorem workDim_indirect_witness :
    le32 (bytesAt wdBufB 0 4) = 0x05000000 ∧ getWorkDimIndirect wdBufB = 5 :=
  ⟨by decide, (workDim_indirect wdBufB).2.2 (by decide)⟩

/-- The implicit-argument kinds used by `getLocalId`. -/
inductive ArgType
  | LOCAL_ID_X
  | LOCAL_ID_Y
  | LOCAL_ID_Z
deriving DecidableEq

/-- The per-dimension factor computed by the if-chain in `getLocalId`:
0 for X (the initialization), 2 for Y, 4 for Z. -/
def localIdFactor : ArgType → Nat
  | ArgType.LOCAL_ID_X => 0
  | ArgType.LOCAL_ID_Y => 2
  | ArgType.LOCAL_ID_Z => 4

/-- The `SimdSize = max(SimdSize, 16)` step of `getLocalId`: an i32 signed
compare `SimdSize > 16` feeding a select, on the `Nat` encoding of the i32
value (a value at least `2 ^ 31` is negative as a signed i32). -/
def simdSizeRounded (SimdSize : Nat) : Nat :=
  if 16 < SimdSize ∧ SimdSize < 2 ^ 31 then SimdSize else 16

/-- Little-endian value of the first eight bytes of a byte list, i.e. the i64
value an LLVM load of those bytes produces. -/
def le64 (bs : List Nat) : Nat :=
  bs.getD 0 0 + 2 ^ 8 * bs.getD 1 0 + 2 ^ 16 * bs.getD 2 0 + 2 ^ 24 * bs.getD 3 0 +
    2 ^ 32 * bs.getD 4 0 + 2 ^ 40 * bs.getD 5 0 + 2 ^ 48 * bs.getD 6 0 +
    2 ^ 56 * bs.getD 7 0

/-- The 16-bit little-endian value at byte address `addr` of memory `mem`. -/
def le16at (mem : Nat → Nat) (addr : Nat) : Nat := mem addr + 2 ^ 8 * mem (addr + 1)

/-- Embedding of `WIFuncResolution::getLocalId` on the IndirectStack
(stack-call attribute) path.  `buf` is the side buffer, `mem` the flat address
space holding the local-id table, `simdSize` the i32 result of the simdSize
intrinsic, `threadId` the i32 lane 2 of R0, `laneId` the i16 simd lane id.
The arithmetic widths follow the source: the two `ThreadBaseOffset`
multiplications are i32, the lane-offset multiplication `laneId * 2` is i16,
and the final additions are i64; the loaded 16-bit value is zero-extended
(value-preserving on `Nat`). -/
def getLocalIdIndirect (buf mem : Nat → Nat) (simdSize threadId laneId : Nat)
    (argType : ArgType) : Nat :=
  let LocalIDBase := le64 (BuildLoadInst buf GLOBAL_STATE_FIELD_OFFSETS.LOCAL_IDS 8 1)
  let SimdSize := simdSizeRounded simdSize
  let Factor := localIdFactor argType
  let ThreadBaseOffset1 := SimdSize * 6 % 2 ^ 32
  let ThreadBaseOffset2 := ThreadBaseOffset1 * threadId % 2 ^ 32
  let ThreadBaseOffset := (ThreadBaseOffset2 + LocalIDBase) % 2 ^ 64
  let Expr1 := SimdSize * Factor % 2 ^ 32
  let Expr2 := laneId * 2 % 2 ^ 16
  let Result := (Expr1 + Expr2) % 2 ^ 64
  le16at mem ((Result + ThreadBaseOffset) % 2 ^ 64)

theorem le16at_lt (mem : Nat → Nat) (addr : Nat) (hm : ∀ i, mem i < 256) :
    le16at mem addr < 2 ^ 16 := by
  have h1 := hm addr
  have h2 := hm (addr + 1)
  unfold le16at
  omega

/-- Claim C3: in IndirectStack mode, LocalId(dim) loads the 16-bit local id at
byte address `table_base + thread_id * (simd_width_rounded * 3 * 2) +
dim_factor * simd_width_rounded + lane * 2` (mod `2 ^ 64`), where `table_base`
is the 64-bit local-id-table pointer field-loaded at the LOCAL_IDS offset of
the side buffer, `simd_width_rounded = max(simd_width, 16)` and the dim factor
is 0, 2, 4 for x, y, z; the loaded 16-bit value is zero-extended.  The
intermediate products must fit their machine widths (i32 and i16). -/
theorem localId_indirect_addr (buf mem : Nat → Nat) (s t l : Nat) (a : ArgType)
    (h6 : simdSizeRounded s * 6 < 2 ^ 32)
    (ht : simdSizeRounded s * 6 * t < 2 ^ 32)
    (hl : l * 2 < 2 ^ 16) :
    (getLocalIdIndirect buf mem s t l a =
      le16at mem ((le64 (bytesAt buf GLOBAL_STATE_FIELD_OFFSETS.LOCAL_IDS 8) +
        t * (simdSizeRounded s * 3 * 2) + localIdFactor a * simdSizeRounded s +
        l * 2) % 2 ^ 64)) ∧
    (s < 2 ^ 31 → simdSizeRounded s = max s 16) ∧
    localIdFactor ArgType.LOCAL_ID_X = 0 ∧
    localIdFactor ArgType.LOCAL_ID_Y = 2 ∧
    localIdFactor ArgType.LOCAL_ID_Z = 4 ∧
    ((∀ i, mem i < 256) → getLocalIdIndirect buf mem s t l a < 2 ^ 16) := by
  have hbase : BuildLoadInst buf GLOBAL_STATE_FIELD_OFFSETS.LOCAL_IDS 8 1 =
      bytesAt buf GLOBAL_STATE_FIELD_OFFSETS.LOCAL_IDS 8 := by
    have := BuildLoadInst_eq_bytesAt buf GLOBAL_STATE_FIELD_OFFSETS.LOCAL_IDS 8 1
      (by decide) (by decide)
    simpa using this
  refine ⟨?_, ?_, rfl, rfl, rfl, fun hm => le16at_lt mem _ hm⟩
  · simp only [getLocalIdIndirect]
    rw [hbase]
    have hF : localIdFactor a ≤ 4 := by cases a <;> decide
    have hFe : simdSizeRounded s * localIdFactor a < 2 ^ 32 := by
      have : simdSizeRounded s * localIdFactor a ≤ simdSizeRounded s * 6 :=
        Nat.mul_le_mul_left _ (by omega)
      omega
    rw [Nat.mod_eq_of_lt h6]
    rw [Nat.mod_eq_of_lt ht]
    rw [Nat.mod_eq_of_lt hFe]
    rw [Nat.mod_eq_of_lt hl]
    have hsmall : simdSizeRounded s * localIdFactor a + l * 2 < 2 ^ 64 := by omega
    rw [Nat.mod_eq_of_lt hsmall]
    rw [Nat.add_mod_mod]
    congr 2
    ring
  · intro hs
    unfold simdSizeRounded
    rw [Nat.max_def]
    split <;> split <;> omega

/-- An all-zero side buffer used as a witness input. -/
def zeroBuf : Nat → Nat := fun _ => 0

/-- Witness for C3: at SIMD width 32, thread id 1, lane 2, dimension Y, the
address formula holds on concrete inputs (hypotheses discharged by computation). -/
theorem localId_indirect_addr_witness :
    getLocalIdIndirect zeroBuf exampleBuf 32 1 2 ArgType.LOCAL_ID_Y =
      le16at exampleBuf ((le64 (bytesAt zeroBuf GLOBAL_STATE_FIELD_OFFSETS.LOCAL_IDS 8) +
        1 * (simdSizeRounded 32 * 3 * 2) +
        localIdFactor ArgType.LOCAL_ID_Y * simdSizeRounded 32 + 2 * 2) % 2 ^ 64) :=
  (localId_indirect_addr zeroBuf exampleBuf 32 1 2 ArgType.LOCAL_ID_Y
    (by decide) (by decide) (by decide)).1

/-- Embedding of `WIFuncResolution::getImplicitArg`: with `P` total formal
parameters, `N` implicit (hidden) arguments and logical index `i` of the
queried kind, the resolved formal-parameter number is `P - N + i`; the
`IGC_ASSERT_MESSAGE(P >= N, ...)` guard aborts (here: `none`) when `P < N`. -/
def getImplicitArg (P N i : Nat) : Option Nat :=
  if N ≤ P then some (P - N + i) else none

/-- Claim C4: the Hidden-Argument Resolver returns formal parameter number
`P - N + i` whenever `P ≥ N`, and fails the fatal assertion (aborts) for any
`P < N`. -/
theorem implicitArg_index (P N i : Nat) :
    (N ≤ P → getImplicitArg P N i = some (P - N + i)) ∧
    (P < N → getImplicitArg P N i = none) := by
  constructor
  · intro h
    simp only [getImplicitArg, if_pos h]
  · intro h
    simp only [getImplicitArg, if_neg (by omega : ¬ N ≤ P)]

/-- Witness for C4: with 5 formals, 3 hidden arguments and logical index 1 the
resolver yields parameter 3; with 2 formals and 3 hidden arguments it aborts. -/
theorem implicitArg_index_witness :
    getImplicitArg 5 3 1 = some 3 ∧ getImplicitArg 2 3 1 = none :=
  ⟨(implicitArg_index 5 3 1).1 (by decide), (implicitArg_index 2 3 1).2 (by decide)⟩

/-- The cast kinds an LLVM `CastInst` could perform on integer widths. -/
inductive CastKind
  | zext
  | sext
  | trunc
deriving DecidableEq

/-- Embedding of the width-adaptation step of `visitCallInst`: a cast is
created only when the handler result's scalar width is strictly below the
call's scalar width, and that cast is `Instruction::ZExt`. -/
def widthAdaptCast (resW callW : Nat) : Option CastKind :=
  if resW < callW then some CastKind.zext else none

/-- Value semantics of the casts on a `w`-bit value `v < 2 ^ w` cast to `W`
bits: zero-extension preserves the value, sign-extension fills the upper bits
when the sign bit is set, truncation reduces modulo `2 ^ W`. -/
def castValue : CastKind → Nat → Nat → Nat → Nat
  | CastKind.zext, _, _, v => v
  | CastKind.sext, w, W, v => if v < 2 ^ (w - 1) then v else v + 2 ^ W - 2 ^ w
  | CastKind.trunc, _, W, v => v % 2 ^ W

/-- The value the driver rewires into the call's uses after width adaptation. -/
def widthAdaptValue (resW callW v : Nat) : Nat :=
  match widthAdaptCast resW callW with
  | none => v
  | some k => castValue k resW callW v

/-- Claim C5: the driver inserts a cast only when the handler result width is
strictly below the call width, and that cast is a zero-extension — never a
sign-extension or truncation — so the rewired value always equals the handler
result; in particular the 16-bit value `0x8001` adapted to 64 bits keeps its
upper bits zero, unlike what a sign-extension would produce. -/
theorem widthAdapt_zext (resW callW v : Nat) (hv : v < 2 ^ resW) :
    (callW ≤ resW → widthAdaptCast resW callW = none) ∧
    (resW < callW → widthAdaptCast resW callW = some CastKind.zext) ∧
    widthAdaptValue resW callW v = v ∧
    widthAdaptCast resW callW ≠ some CastKind.sext ∧
    widthAdaptCast resW callW ≠ some CastKind.trunc ∧
    widthAdaptValue 16 64 0x8001 = 0x8001 ∧
    castValue CastKind.sext 16 64 0x8001 = 0xFFFFFFFFFFFF8001 := by
  by_cases h : resW < callW
  · refine ⟨fun h2 => absurd h (by omega), fun _ => ?_, ?_, ?_, ?_, by decide, by decide⟩
    · simp [widthAdaptCast, h]
    · simp [widthAdaptValue, widthAdaptCast, castValue, h]
    · simp [widthAdaptCast, h]
    · simp [widthAdaptCast, h]
  · refine ⟨fun _ => ?_, fun h2 => absurd h2 h, ?_, ?_, ?_, by decide, by decide⟩
    · simp [widthAdaptCast, h]
    · simp [widthAdaptValue, widthAdaptCast, h]
    · simp [widthAdaptCast, h]
    · simp [widthAdaptCast, h]

/-- Witness for C5: the 16-bit handler value `0x8001` feeding a 64-bit call is
rewired unchanged (upper bits zero). -/
theorem widthAdapt_zext_witness : widthAdaptValue 16 64 0x8001 = 0x8001 :=
  (widthAdapt_zext 16 64 0x8001 (by decide)).2.2.1

/-- Where the thread-state vector (R0) is obtained from in `getGroupId` /
`getLocalThreadId`: the GenISA getR0 platform intrinsic on the stack-call
path, the R0 hidden argument otherwise. -/
inductive R0Source
  | r0PlatformIntrinsic
  | r0HiddenArg
deriving DecidableEq

/-- Embedding of `WIFuncResolution::getGroupId`: the source of the vector `V`
depends on the stack-call attribute, after which the lane index
`dim + (dim == 0 ? 1 : 5)` (an i32 add) is computed identically on both
paths. -/
def getGroupId (hasStackCall : Bool) (dim : Nat) : R0Source × Nat :=
  let V := if hasStackCall then R0Source.r0PlatformIntrinsic else R0Source.r0HiddenArg
  let cmpDim := dim = 0
  let offsetR0 := if cmpDim then 1 else 5
  let index := (dim + offsetR0) % 2 ^ 32
  (V, index)

/-- Claim C6: GroupId extracts thread-state-vector lane
`dim + (dim == 0 ? 1 : 5)` — lanes 1, 6, 7 for dims 0, 1, 2 — and this lane
computation is identical in both calling-convention modes; only the vector
source differs between the modes. -/
theorem groupId_lane (b : Bool) (dim : Nat) :
    (getGroupId b dim).2 = (dim + if dim = 0 then 1 else 5) % 2 ^ 32 ∧
    (getGroupId b dim).2 = (getGroupId (!b) dim).2 ∧
    (getGroupId true dim).1 ≠ (getGroupId false dim).1 ∧
    (getGroupId b 0).2 = 1 ∧ (getGroupId b 1).2 = 6 ∧ (getGroupId b 2).2 = 7 := by
  refine ⟨rfl, rfl, by simp [getGroupId], rfl, rfl, rfl⟩

/-- A value occupying one use-site of the ENQUEUED_LOCAL_WORK_SIZE hidden
argument: either still the argument itself or a literal constant data vector. -/
inductive UseVal
  | argUse
  | constVec (dims : List Nat)
deriving DecidableEq

/-- Embedding of the post-visit step of `runOnFunction`: when
`getKnownWorkGroupSize` yields compile-time dims and the
ENQUEUED_LOCAL_WORK_SIZE implicit argument is present (`some uses`), every use
of that argument is replaced with the literal constant vector
(`replaceAllUsesWith`); otherwise nothing is touched. -/
def replaceEnqUses (knownDims : Option (List Nat)) (enqUses : Option (List UseVal)) :
    Option (List UseVal) :=
  match knownDims with
  | none => enqUses
  | some dims =>
    match enqUses with
    | none => enqUses
    | some uses => some (uses.map fun _ => UseVal.constVec dims)

/-- Claim C7: with compile-time group dimensions and a present
ENQUEUED_LOCAL_WORK_SIZE hidden argument, every use of that argument becomes
the literal constant vector of those dimensions (e.g. `(8,1,1)`); with no such
metadata, or with the argument absent, the uses are left untouched. -/
theorem knownWorkGroupSize_subst (kd : Option (List Nat)) (arg : Option (List UseVal)) :
    (∀ dims uses, kd = some dims → arg = some uses →
      replaceEnqUses kd arg = some (uses.map fun _ => UseVal.constVec dims)) ∧
    (kd = none → replaceEnqUses kd arg = arg) ∧
    (arg = none → replaceEnqUses kd arg = arg) ∧
    replaceEnqUses (some [8, 1, 1]) (some [UseVal.argUse, UseVal.argUse]) =
      some [UseVal.constVec [8, 1, 1], UseVal.constVec [8, 1, 1]] := by
  refine ⟨fun dims uses hk ha => ?_, fun hk => ?_, fun ha => ?_, by decide⟩
  · subst hk; subst ha; rfl
  · subst hk; rfl
  · subst ha; cases kd <;> rfl

/-- Witness for C7: fixed dims `(8,1,1)` and one use of the present argument. -/
theorem knownWorkGroupSize_subst_witness :
    replaceEnqUses (some [8, 1, 1]) (some [UseVal.argUse]) =
      some [UseVal.constVec [8, 1, 1]] :=
  (knownWorkGroupSize_subst (some [8, 1, 1]) (some [UseVal.argUse])).1
    [8, 1, 1] [UseVal.argUse] rfl rfl

/-- The per-function state `runOnFunction` acts on: the number of recognized
query call sites (each is rewritten and erased by `visitCallInst`), the
compile-time group dims of `getKnownWorkGroupSize`, and the use-sites of the
ENQUEUED_LOCAL_WORK_SIZE implicit argument (`none` when the argument is
absent). -/
structure FuncModel where
  recognizedCalls : Nat
  knownDims : Option (List Nat)
  enqUses : Option (List UseVal)
deriving DecidableEq

/-- Embedding of `WIFuncResolution::runOnFunction`: `m_changed` starts false
and is set (only) by `visitCallInst` for each recognized call; the visit
rewrites and erases every recognized call; afterwards the known-work-group-size
substitution runs without touching `m_changed`; the pair is (returned flag,
resulting function). -/
def runOnFunction (f : FuncModel) : Bool × FuncModel :=
  let m_changed := f.recognizedCalls != 0
  (m_changed,
    { recognizedCalls := 0,
      knownDims := f.knownDims,
      enqUses := replaceEnqUses f.knownDims f.enqUses })

/-- A function with no recognized query calls, compile-time dims `(8,1,1)` and
one live use of the present ENQUEUED_LOCAL_WORK_SIZE argument. -/
def substOnlyFunc : FuncModel :=
  { recognizedCalls := 0, knownDims := some [8, 1, 1], enqUses := some [UseVal.argUse] }

/-- Claim C8 fails on the code: on `substOnlyFunc` the pass rewrites the
argument's use (the function changes) yet returns `false`, because the
known-work-group-size substitution never sets `m_changed`. -/
theorem runOnFunction_return_misses_subst :
    (runOnFunction substOnlyFunc).1 = false ∧
    (runOnFunction substOnlyFunc).2 ≠ substOnlyFunc := by
  refine ⟨rfl, by decide⟩

/-- The three i32 lanes of a loaded `<3 x i32>` value, from its bytes. -/
def vec32lanes (bs : List Nat) : List Nat :=
  [le32 bs, le32 (bs.drop 4), le32 (bs.drop 8)]

/-- Embedding of `WIFuncResolution::getLocalSize` on the IndirectStack path:
field-load a `<3 x i32>` at the LOCAL_SIZE_X offset of the side buffer, then
extract the (runtime) lane `dim`. -/
def getLocalSizeIndirect (buf : Nat → Nat) (dim : Nat) : Nat :=
  (vec32lanes (BuildLoadInst buf GLOBAL_STATE_FIELD_OFFSETS.LOCAL_SIZE_X 4 3)).getD dim 0

/-- Embedding of `WIFuncResolution::getEnqueuedLocalSize` on the IndirectStack
path: the source assumes the enqueued local size equals the local size, so it
also field-loads a `<3 x i32>` at the LOCAL_SIZE_X offset and extracts lane
`dim`. -/
def getEnqueuedLocalSizeIndirect (buf : Nat → Nat) (dim : Nat) : Nat :=
  (vec32lanes (BuildLoadInst buf GLOBAL_STATE_FIELD_OFFSETS.LOCAL_SIZE_X 4 3)).getD dim 0

/-- Claim C9: in IndirectStack mode the EnqueuedLocalSize(dim) lowering is
identical to the LocalSize(dim) lowering — the same 3-element 32-bit field
load at the LOCAL_SIZE byte offset and the same lane extraction. -/
theorem enqueuedLocalSize_eq_localSize_indirect (buf : Nat → Nat) (dim : Nat) :
    getEnqueuedLocalSizeIndirect buf dim = getLocalSizeIndirect buf dim := rfl

/-- The shape of the value sequence a handler emits for a query: an
extractelement of a hidden argument, the hidden argument itself, a side-buffer
load, or a fatal assertion failure. -/
inductive Resolution
  | hiddenArgExtract (paramIdx dim : Nat)
  | hiddenArgDirect (paramIdx : Nat)
  | sideBufferLoad (offset : Nat)
  | fatal
deriving DecidableEq

/-- Embedding of `WIFuncResolution::getStageInGridOrigin`: unlike the other
handlers it never consults the stack-call attribute (the `hasStackCall`
parameter is ignored exactly as the source ignores the attribute); it resolves
the STAGE_IN_GRID_ORIGIN hidden argument and extracts lane `dim`. -/
def getStageInGridOrigin (hasStackCall : Bool) (P N i dim : Nat) : Resolution :=
  match getImplicitArg P N i with
  | some idx => Resolution.hiddenArgExtract idx dim
  | none => Resolution.fatal

/-- Embedding of `WIFuncResolution::getSyncBufferPtr`: it never consults the
stack-call attribute; it resolves the SYNC_BUFFER hidden argument directly. -/
def getSyncBufferPtr (hasStackCall : Bool) (P N i : Nat) : Resolution :=
  match getImplicitArg P N i with
  | some idx => Resolution.hiddenArgDirect idx
  | none => Resolution.fatal

/-- Claim C10: StageInGridOrigin and SyncBufferPointer resolve through their
hidden arguments unconditionally: the result is the same with and without the
stack-call attribute, is the hidden-argument resolution at parameter
`P - N + i`, and is never a side-buffer load nor an error (given the resolver
invariant `N ≤ P`). -/
theorem stageInGridOrigin_syncBuffer_unconditional (b : Bool) (P N i j dim : Nat)
    (h : N ≤ P) :
    getStageInGridOrigin b P N i dim = getStageInGridOrigin true P N i dim ∧
    getSyncBufferPtr b P N j = getSyncBufferPtr true P N j ∧
    getStageInGridOrigin b P N i dim = Resolution.hiddenArgExtract (P - N + i) dim ∧
    getSyncBufferPtr b P N j = Resolution.hiddenArgDirect (P - N + j) ∧
    (∀ off, getStageInGridOrigin b P N i dim ≠ Resolution.sideBufferLoad off) ∧
    (∀ off, getSyncBufferPtr b P N j ≠ Resolution.sideBufferLoad off) ∧
    getStageInGridOrigin b P N i dim ≠ Resolution.fatal ∧
    getSyncBufferPtr b P N j ≠ Resolution.fatal := by
  have hi : getImplicitArg P N i = some (P - N + i) := by
    simp only [getImplicitArg, if_pos h]
  have hj : getImplicitArg P N j = some (P - N + j) := by
    simp only [getImplicitArg, if_pos h]
  refine ⟨rfl, rfl, ?_, ?_, ?_, ?_, ?_, ?_⟩ <;>
    simp [getStageInGridOrigin, getSyncBufferPtr, hi, hj]

/-- Witness for C10: with the stack-call attribute set, 5 formals, 2 hidden
arguments and logical index 0, StageInGridOrigin(2) still resolves to an
extract of hidden parameter 3. -/
theorem stageInGridOrigin_syncBuffer_witness :
    getStageInGridOrigin true 5 2 0 2 = Resolution.hiddenArgExtract 3 2 :=
  (stageInGridOrigin_syncBuffer_unconditional true 5 2 0 1 2 (by decide)).2.2.1

end WIFunc
